import Mathlib

/-!
Verification of the M-Stack inference-time reliability controller
(apmorey93/mstack) against its natural-language specification.

The repository's core pipeline is given as pseudocode inside the design
document (`src/unnamed/part_001`); the two site renderers and the smoke
test are real JavaScript / shell code. Numeric quantities are embedded
as rationals (JS numbers and python floats carry exact decimal literals
here); JS objects with possibly-missing fields become `Option`-valued
structure fields; fallible JS code returns `Except`.
-/

namespace MStack

/-- Actions of the Decision Controller, as in the design document:
verify / revise are internal-loop actions, abstain / emit terminate. -/
inductive Action where
  | verify
  | revise
  | abstain
  | emit
deriving DecidableEq, Repr

/-! ## Dynamic-K selector (src/unnamed/part_001, §13.1)

```python
def dynamic_k(query, ctx):
    r = 0.0
    r += 0.3 * is_long(query)           # length proxy
    r += 0.4 * retrieval_thin(ctx)      # few relevant docs
    r += 0.3 * domain_risk(ctx.domain)  # e.g., medical > chit-chat
    return 1 if r < 0.33 else (3 if r < 0.66 else 5)
```

The three helper scores `is_long`, `retrieval_thin`, `domain_risk` are
external heuristics producing values in [0,1]; they enter the embedding
as the three rational arguments. -/

/-- First weight of the risk combination. -/
def w1 : ℚ := 3/10

/-- Second weight of the risk combination. -/
def w2 : ℚ := 4/10

/-- Third weight of the risk combination. -/
def w3 : ℚ := 3/10

/-- The risk estimate `r` accumulated by `dynamic_k`. -/
def riskScore (lengthProxy retrievalThin domainRisk : ℚ) : ℚ :=
  w1 * lengthProxy + w2 * retrievalThin + w3 * domainRisk

/-- The function `dynamic_k` from the design document: maps the risk estimate to
K ∈ {1,3,5} by the cut points 0.33 and 0.66. -/
def dynamic_k (lengthProxy retrievalThin domainRisk : ℚ) : ℕ :=
  if riskScore lengthProxy retrievalThin domainRisk < 33/100 then 1
  else if riskScore lengthProxy retrievalThin domainRisk < 66/100 then 3
  else 5

/-! ## CMDP dual update (src/unnamed/part_001, §13.3)

```python
λ = max(0, λ + η * (observed_cost - B))
μ = max(0, μ + η * (observed_risk - α))
```
-/

/-- The Calibrator's update of the cost multiplier λ. -/
def lambdaUpdate (lam eta observedCost B : ℚ) : ℚ :=
  max 0 (lam + eta * (observedCost - B))

/-- The Calibrator's update of the risk multiplier μ. -/
def muUpdate (mu eta observedRisk alpha : ℚ) : ℚ :=
  max 0 (mu + eta * (observedRisk - alpha))

/-! ## check-site.sh (src/scripts/check-site.sh)

```bash
HTTP1=$(curl ... "$BASE_URL/")
HTTP2=$(curl ... "$BASE_URL/evidence.html")
if [ "$HTTP1" -ne 200 ]; then echo "Index returned HTTP $HTTP1"; exit 2; fi
if [ "$HTTP2" -ne 200 ]; then echo "Evidence returned HTTP $HTTP2"; exit 3; fi
echo "Both pages returned 200 OK"
```

The two probed status codes are the script's inputs; the embedding
records the exit code and the echoed lines after the initial
"Checking $BASE_URL" line. -/

/-- Result of running the smoke test: exit code plus echoed lines. -/
structure SiteCheck where
  exitCode : ℕ
  output : List String
deriving DecidableEq, Repr

/-- The branch structure of check-site.sh on the two probed codes. -/
def checkSite (h1 h2 : ℕ) : SiteCheck :=
  if h1 ≠ 200 then
    ⟨2, ["Index returned HTTP " ++ toString h1]⟩
  else if h2 ≠ 200 then
    ⟨3, ["Evidence returned HTTP " ++ toString h2]⟩
  else
    ⟨0, ["Both pages returned 200 OK"]⟩

/-! ## Decision Controller (design document §4.6, §13.3) -/

/-- Modelled from the spec: the "fixed high-water mark" on
contradiction mass used by decision rule 2; its numeric value is not
given in the repository (the test scenarios only imply it is below
0.9), so the model fixes 0.8. -/
def highWater : ℚ := 8/10

/-- Inputs of one Decision Controller step: the signals and scores the
adapters reported, the request's budget and risk cap, the DualState
snapshot (λ, μ, τ), the per-action base utility / cost / risk proxies,
and the remaining verify / revise budget flags. -/
structure DecisionInputs where
  judge : ℚ
  contradiction_mass : ℚ
  rag_coverage : ℚ
  ctxSupplied : Bool
  verifyBudgetLeft : Bool
  reviseBudgetLeft : Bool
  lam : ℚ
  mu : ℚ
  tau : ℚ
  budgetRemaining : ℚ
  risk_cap : ℚ
  baseUtility : Action → ℚ
  cost : Action → ℚ
  risk : Action → ℚ

/-- The Lagrangian utility
`U(a) = base_utility(a) − λ·max(0, cost(a) − budget) − μ·max(0, risk(a) − risk_cap)`. -/
def utility (x : DecisionInputs) (a : Action) : ℚ :=
  x.baseUtility a - x.lam * max 0 (x.cost a - x.budgetRemaining)
    - x.mu * max 0 (x.risk a - x.risk_cap)

/-- An action is feasible when its cost fits the remaining budget. -/
def feasible (x : DecisionInputs) (a : Action) : Bool :=
  decide (x.cost a ≤ x.budgetRemaining)

/-- The fixed tie-break preference order emit > revise > verify > abstain. -/
def actionOrder : List Action :=
  [Action.emit, Action.revise, Action.verify, Action.abstain]

/-- Rule 3/4: the feasible action of maximal utility, ties broken by
`actionOrder`; abstain when no action is feasible. -/
def bestAction (x : DecisionInputs) : Action :=
  match actionOrder.filter (feasible x) with
  | [] => Action.abstain
  | a :: rest => rest.foldl (fun b c => if utility x b < utility x c then c else b) a

/-- Modelled from the spec: `decide_cmdp` of the pipeline pseudocode is
not implemented in the repository; this follows the decision rule of
§4.6 in order of precedence: (1) low coverage with context → verify or
abstain; (2) contradiction mass above the high-water mark → revise or
abstain; (3/4) constrained Lagrangian maximisation with abstain as the
escape hatch. -/
def decideCmdp (x : DecisionInputs) : Action :=
  if x.ctxSupplied && decide (x.rag_coverage < x.tau) then
    if x.verifyBudgetLeft then Action.verify else Action.abstain
  else if highWater < x.contradiction_mass then
    if x.reviseBudgetLeft then Action.revise else Action.abstain
  else
    bestAction x

/-! ## Pipeline loop (design document §6 pseudocode plus spec §5)

The pseudocode orchestrator decides an action and hands it to the
external action executor; verify / revise re-enter the pipeline with a
decremented remaining-budget counter (spec §5, design note: "an
explicit iteration counter passed through each re-entry"). The
environment `env` supplies the controller inputs observed at each
remaining-counter value (adapter outputs may differ between
re-entries). -/

/-- The bounded verify/revise loop: at counter 0 the escape hatch
abstains; otherwise the decided action terminates the loop (emit,
abstain) or re-enters with the counter decremented (verify, revise). -/
def pipelineLoop (env : ℕ → DecisionInputs) : ℕ → Action
  | 0 => Action.abstain
  | n + 1 =>
    match decideCmdp (env (n + 1)) with
    | Action.emit => Action.emit
    | Action.abstain => Action.abstain
    | Action.verify => pipelineLoop env n
    | Action.revise => pipelineLoop env n

/-- Number of verify/revise re-entries the loop performs. -/
def pipelineReentries (env : ℕ → DecisionInputs) : ℕ → ℕ
  | 0 => 0
  | n + 1 =>
    match decideCmdp (env (n + 1)) with
    | Action.emit => 0
    | Action.abstain => 0
    | Action.verify => 1 + pipelineReentries env n
    | Action.revise => 1 + pipelineReentries env n

/-- A concrete constant environment reporting the adapter-failure
worst-case inputs (judge = 0, contradiction_mass = 1, coverage = 0)
with context supplied, both loop budgets available, τ = 1/2, a token
budget of 2000 and risk cap 1/5; per-action proxies all zero. -/
def failSafeEnvExample : ℕ → DecisionInputs := fun _ =>
  ⟨0, 1, 0, true, true, true, 0, 0, 1/2, 2000, 1/5,
    fun _ => 0, fun _ => 0, fun _ => 0⟩

/-! ## Audit Logger hash chain (spec §3, §4.8, §6)

Modelled from the spec: the Audit Logger is not implemented in the
repository (the design document only shows an example JSON record).
Record content is abstracted to a natural number (its canonical
serialization); the hash function is an arbitrary injective
`h : ℕ → ℕ` over the content, per "computing prev_hash as a hash of
the previous record's content", with `genesis` the fixed value of the
first record's prev_hash. -/

/-- An audit-log record: its content plus the chaining field. -/
structure LogRecord where
  content : ℕ
  prev_hash : ℕ
deriving DecidableEq, Repr, Inhabited

/-- The fixed genesis value for the first record. -/
def genesis : ℕ := 0

/-- Append-only construction: each record's prev_hash is the running
link value, which then becomes the hash of this record's content. -/
def chainFrom (h : ℕ → ℕ) (g : ℕ) : List ℕ → List LogRecord
  | [] => []
  | c :: cs => ⟨c, g⟩ :: chainFrom h (h c) cs

/-- The chain the Audit Logger produces from a sequence of contents. -/
def buildChain (h : ℕ → ℕ) (cs : List ℕ) : List LogRecord :=
  chainFrom h genesis cs

/-- The full chain check: the first record's prev_hash is the genesis
value and every later record's prev_hash is the hash of the preceding
record's content. -/
def chainOk (h : ℕ → ℕ) (g : ℕ) : List LogRecord → Bool
  | [] => true
  | r :: rs => (r.prev_hash == g) && chainOk h (h r.content) rs

/-- The prev_hash check of the single adjacent pair (j, j+1):
record j+1's prev_hash against the hash of record j's content. -/
def pairOkAt (h : ℕ → ℕ) (rs : List LogRecord) (j : ℕ) : Bool :=
  (rs.getD (j + 1) default).prev_hash == h (rs.getD j default).content

/-- Mutate the content of the stored record at position i, leaving its
prev_hash field (and every other record) unchanged. -/
def tamper (i : ℕ) (c : ℕ) (rs : List LogRecord) : List LogRecord :=
  rs.set i ⟨c, (rs.getD i default).prev_hash⟩

/-! ## Claim-graph contradiction mass (design document §13.2, spec §4.3)

Modelled from the spec: §13.2 only names the maximum-consistent-subgraph
step; the required greedy policy is §4.3's "repeatedly remove the claim
with the highest sum of incident contradiction-edge weights until no
contradiction edge remains above threshold", with
`contradiction_mass = 1 − |kept|/|total|`. Claims are identified by
naturals; contradiction edges are undirected weighted pairs. -/

/-- A claim graph restricted to its contradiction edges: the claim
nodes, the weighted contradiction edges, and the confidence threshold
above which an edge counts. -/
structure CGraph where
  nodes : List ℕ
  edges : List (ℕ × ℕ × ℚ)
  threshold : ℚ

/-- Whether an edge is an above-threshold contradiction between two
currently kept claims. -/
def activeEdge (g : CGraph) (kept : List ℕ) (e : ℕ × ℕ × ℚ) : Bool :=
  decide (g.threshold < e.2.2) && decide (e.1 ∈ kept) && decide (e.2.1 ∈ kept)

/-- Whether any above-threshold contradiction edge remains among kept. -/
def hasBadEdge (g : CGraph) (kept : List ℕ) : Bool :=
  g.edges.any (activeEdge g kept)

/-- Sum of the weights of contradiction edges incident to claim v among
the kept claims. -/
def incidentWeight (g : CGraph) (kept : List ℕ) (v : ℕ) : ℚ :=
  (g.edges.filter fun e =>
    (e.1 == v && decide (e.2.1 ∈ kept)) || (e.2.1 == v && decide (e.1 ∈ kept))).foldl
    (fun s e => s + e.2.2) 0

/-- The element of the list maximising f; ties keep the earlier one. -/
def maxBy (f : ℕ → ℚ) : List ℕ → Option ℕ
  | [] => none
  | x :: xs =>
    match maxBy f xs with
    | none => some x
    | some y => some (if f x < f y then y else x)

/-- One pass of the greedy removal, fuelled by the node count: while an
above-threshold contradiction edge remains, remove the kept claim with
the highest incident contradiction weight. -/
def greedyRemove (g : CGraph) : ℕ → List ℕ → List ℕ
  | 0, kept => kept
  | fuel + 1, kept =>
    if hasBadEdge g kept then
      match maxBy (incidentWeight g kept) kept with
      | none => kept
      | some v => greedyRemove g fuel (kept.erase v)
    else kept

/-- The kept claims after the greedy procedure. -/
def keptClaims (g : CGraph) : List ℕ :=
  greedyRemove g g.nodes.length g.nodes

/-- The recorded `contradiction_mass = 1 − |kept|/|total|`. -/
def contradiction_mass (g : CGraph) : ℚ :=
  1 - ((keptClaims g).length : ℚ) / (g.nodes.length : ℚ)

/-! ## Claim Graph Builder pair enumeration (spec §4.3)

Modelled from the spec: the Claim Graph Builder is not implemented in
the repository. Claims are positions 0..n−1 in extraction order and
`cands` lists each claim's source-candidate id; the builder calls the
entailment adapter once per generated pair. -/

/-- The unordered claim pairs the builder sends to the entailment
adapter, represented by index pairs (i, j) with i < j: every pair of
claims from different candidates, intra-candidate pairs skipped. -/
def claimPairs (cands : List ℕ) : List (ℕ × ℕ) :=
  (List.range cands.length).flatMap fun i =>
    (List.range cands.length).filterMap fun j =>
      if i < j ∧ cands.getD i 0 ≠ cands.getD j 0 then some (i, j) else none

/-! ## Evidence renderers (src/mstack-site/evidence.js and src/unnamed/part_000)

Both `renderHallucinationTable` versions iterate the results object's
keys in enumeration order and append a row when the domain entry has
truthy `Base` and `MStack` system objects. The embedding keeps a
results object as a list of (domain, entry) in enumeration order; a
system object present with numeric `hallucination_rate` q becomes
`some q`, an absent system object becomes `none`. A rendered cell keeps
the value `rate * 100` handed to `toFixed(1) + "%"` (both versions use
that same formatting, and 0 formats as "0.0%").

The `src/mstack-site/evidence.js` version reads
`results[domain].SelfConsistency.hallucination_rate` and
`results[domain].JudgeGate.hallucination_rate` without optional
chaining, so a missing system object raises a TypeError — embedded as
`Except.error`. The `src/unnamed/part_000` version uses
`SelfConsistency?.hallucination_rate * 100 || 0`, rendering a missing
entry as 0. -/

/-- One domain entry of results.json: the per-system hallucination
rates that may be present. -/
structure DomainEntry where
  base : Option ℚ
  selfConsistency : Option ℚ
  judgeGate : Option ℚ
  mstack : Option ℚ
deriving DecidableEq, Repr

/-- One appended table row: the domain cell and the four percentage
cells (Base, SelfConsistency, JudgeGate, MStack), each the value
`rate * 100` passed to `toFixed(1) + "%"`. -/
structure TableRow where
  domain : String
  baseCell : ℚ
  scCell : ℚ
  jgCell : ℚ
  msCell : ℚ
deriving DecidableEq, Repr

/-- Function `renderHallucinationTable` of src/unnamed/part_000: the defensive
version with optional chaining and `|| 0` fallbacks. -/
def renderTablePart000 : List (String × DomainEntry) → List TableRow
  | [] => []
  | (d, e) :: rest =>
    match e.base, e.mstack with
    | some b, some m =>
      ⟨d, 100 * b, 100 * e.selfConsistency.getD 0, 100 * e.judgeGate.getD 0, 100 * m⟩
        :: renderTablePart000 rest
    | _, _ => renderTablePart000 rest

/-- Function `renderHallucinationTable` of src/mstack-site/evidence.js: the
strict version; reading `hallucination_rate` off a missing
SelfConsistency or JudgeGate object throws. -/
def renderTableEvidenceJs : List (String × DomainEntry) → Except Unit (List TableRow)
  | [] => Except.ok []
  | (d, e) :: rest =>
    match e.base, e.mstack with
    | some b, some m =>
      match e.selfConsistency, e.judgeGate with
      | some s, some j =>
        (renderTableEvidenceJs rest).map
          (fun rs => ⟨d, 100 * b, 100 * s, 100 * j, 100 * m⟩ :: rs)
      | _, _ => Except.error ()
    | _, _ => renderTableEvidenceJs rest

/-- The row built for a qualifying domain by the part_000 renderer. -/
def rowOf (p : String × DomainEntry) : TableRow :=
  ⟨p.1, 100 * (p.2.base.getD 0), 100 * p.2.selfConsistency.getD 0,
    100 * p.2.judgeGate.getD 0, 100 * (p.2.mstack.getD 0)⟩

/-- A results object whose single domain entry has Base and MStack but
lacks SelfConsistency and JudgeGate. -/
def resultsMissingSC : List (String × DomainEntry) :=
  [("RAG", ⟨some (1/10), none, none, some (1/20)⟩)]

/-- A results object whose qualifying entries carry all four systems
(and one non-qualifying entry without Base / MStack). -/
def resultsComplete : List (String × DomainEntry) :=
  [("SQuAD2", ⟨some (1/4), some (1/5), some (3/20), some (1/10)⟩),
   ("NoData", ⟨none, some (1/2), none, none⟩)]

/-! ## Theorems -/

/-- C3: the Dynamic-K Selector computes the risk estimate r as a fixed
convex combination of three [0,1] terms (weights 0.3, 0.4, 0.3 summing
to 1, so r lands in [0,1]) and maps it to K by the cut points 0.33 and
0.66: K=1 iff r<0.33, K=3 iff 0.33≤r<0.66, K=5 iff r≥0.66; as a pure
function of its three inputs, equal inputs yield equal K. -/
theorem dynamic_k_spec (lp tp dr : ℚ)
    (hlp0 : 0 ≤ lp) (hlp1 : lp ≤ 1) (htp0 : 0 ≤ tp) (htp1 : tp ≤ 1)
    (hdr0 : 0 ≤ dr) (hdr1 : dr ≤ 1) :
    w1 + w2 + w3 = 1 ∧
    (0 ≤ riskScore lp tp dr ∧ riskScore lp tp dr ≤ 1) ∧
    (dynamic_k lp tp dr = 1 ↔ riskScore lp tp dr < 33/100) ∧
    (dynamic_k lp tp dr = 3 ↔
      (33/100 ≤ riskScore lp tp dr ∧ riskScore lp tp dr < 66/100)) ∧
    (dynamic_k lp tp dr = 5 ↔ 66/100 ≤ riskScore lp tp dr) := by
  have hws : w1 + w2 + w3 = 1 := by norm_num [w1, w2, w3]
  have hb0 : 0 ≤ riskScore lp tp dr := by
    unfold riskScore w1 w2 w3; nlinarith
  have hb1 : riskScore lp tp dr ≤ 1 := by
    unfold riskScore w1 w2 w3; nlinarith
  refine ⟨hws, ⟨hb0, hb1⟩, ?_, ?_, ?_⟩ <;> unfold dynamic_k <;>
    split_ifs with ha hb <;>
    simp_all <;> linarith

/-- C3 witness: the theorem instantiated at lp = 1/2, tp = 1/2,
dr = 1/2, where r = 1/2 and K = 3. -/
theorem dynamic_k_spec_witness :
    w1 + w2 + w3 = 1 ∧
    (0 ≤ riskScore (1/2) (1/2) (1/2) ∧ riskScore (1/2) (1/2) (1/2) ≤ 1) ∧
    (dynamic_k (1/2) (1/2) (1/2) = 1 ↔ riskScore (1/2) (1/2) (1/2) < 33/100) ∧
    (dynamic_k (1/2) (1/2) (1/2) = 3 ↔
      (33/100 ≤ riskScore (1/2) (1/2) (1/2) ∧ riskScore (1/2) (1/2) (1/2) < 66/100)) ∧
    (dynamic_k (1/2) (1/2) (1/2) = 5 ↔ 66/100 ≤ riskScore (1/2) (1/2) (1/2)) :=
  dynamic_k_spec (1/2) (1/2) (1/2) (by norm_num) (by norm_num) (by norm_num)
    (by norm_num) (by norm_num) (by norm_num)

/-- C4: after every Calibrator dual update, the projected values
max(0, λ + η·(observed_cost − budget)) and
max(0, μ + η·(observed_risk − risk_cap)) are non-negative, for every
prior λ ≥ 0, μ ≥ 0 and step size η > 0. -/
theorem dual_update_nonneg (lam mu eta observedCost observedRisk B alpha : ℚ)
    (hlam : 0 ≤ lam) (hmu : 0 ≤ mu) (heta : 0 < eta) :
    0 ≤ lambdaUpdate lam eta observedCost B ∧
    0 ≤ muUpdate mu eta observedRisk alpha :=
  ⟨le_max_left 0 _, le_max_left 0 _⟩

/-- C4 witness: the theorem instantiated at λ = 0, μ = 0, η = 1/100,
observed cost 3000 against budget 2000, observed risk 1/2 against
risk cap 1/5. -/
theorem dual_update_nonneg_witness :
    0 ≤ lambdaUpdate 0 (1/100) 3000 2000 ∧
    0 ≤ muUpdate 0 (1/100) (1/2) (1/5) :=
  dual_update_nonneg 0 0 (1/100) 3000 (1/2) 2000 (1/5)
    le_rfl le_rfl (by norm_num)

/-- C9: check-site.sh exits 2 iff the index status is not 200, exits 3
iff the index status is 200 but the evidence status is not, and prints
"Both pages returned 200 OK" with exit code 0 iff both statuses are
200. -/
theorem checkSite_spec (h1 h2 : ℕ) :
    ((checkSite h1 h2).exitCode = 2 ↔ h1 ≠ 200) ∧
    ((checkSite h1 h2).exitCode = 3 ↔ (h1 = 200 ∧ h2 ≠ 200)) ∧
    (((checkSite h1 h2).exitCode = 0 ∧
        (checkSite h1 h2).output = ["Both pages returned 200 OK"]) ↔
      (h1 = 200 ∧ h2 = 200)) := by
  by_cases e1 : h1 = 200 <;> by_cases e2 : h2 = 200 <;>
    simp [checkSite, e1, e2]

/-- C1: for every environment of controller inputs and every initial
remaining-budget counter, the pipeline loop returns emit or abstain
(never verify or revise), and performs at most the counter's worth of
verify/revise re-entries. -/
theorem pipeline_terminal_action (env : ℕ → DecisionInputs) (n : ℕ) :
    (pipelineLoop env n = Action.emit ∨ pipelineLoop env n = Action.abstain) ∧
    pipelineReentries env n ≤ n := by
  induction n with
  | zero => exact ⟨Or.inr rfl, le_rfl⟩
  | succ k ih =>
    have hk := ih.2
    unfold pipelineLoop pipelineReentries
    cases decideCmdp (env (k + 1)) with
    | verify =>
      refine ⟨ih.1, ?_⟩
      show 1 + pipelineReentries env k ≤ k + 1
      omega
    | revise =>
      refine ⟨ih.1, ?_⟩
      show 1 + pipelineReentries env k ≤ k + 1
      omega
    | abstain => exact ⟨Or.inr rfl, Nat.zero_le _⟩
    | emit => exact ⟨Or.inl rfl, Nat.zero_le _⟩

/-- C2: whenever every controller input reports the adapter-failure
worst case judge = 0, contradiction_mass = 1, coverage = 0, the
Decision Controller never decides emit at any step, and the pipeline's
final action is abstain, for every budget counter. -/
theorem failsafe_abstain (env : ℕ → DecisionInputs) (n : ℕ)
    (h : ∀ k, (env k).judge = 0 ∧ (env k).contradiction_mass = 1 ∧
      (env k).rag_coverage = 0) :
    (∀ k, decideCmdp (env k) ≠ Action.emit) ∧
    pipelineLoop env n = Action.abstain := by
  have hne : ∀ k, decideCmdp (env k) ≠ Action.emit := by
    intro k
    obtain ⟨hj, hc, hr⟩ := h k
    unfold decideCmdp
    have hhw : highWater < (env k).contradiction_mass := by
      rw [hc]; norm_num [highWater]
    split_ifs <;> simp_all
  refine ⟨hne, ?_⟩
  induction n with
  | zero => rfl
  | succ k ih =>
    unfold pipelineLoop
    rcases hd : decideCmdp (env (k + 1)) with _ | _ | _ | _
    · exact ih
    · exact ih
    · rfl
    · exact absurd hd (hne (k + 1))

/-- C2 witness: a concrete constant environment with the worst-case
inputs and budget counter 2. -/
theorem failsafe_abstain_witness :
    (∀ k, decideCmdp (failSafeEnvExample k) ≠ Action.emit) ∧
    pipelineLoop failSafeEnvExample 2 = Action.abstain :=
  failsafe_abstain failSafeEnvExample 2 (fun _ => ⟨rfl, rfl, rfl⟩)

/-- Helper: the chain built from a running link value always passes the
full check against that value. -/
theorem chainOk_chainFrom (h : ℕ → ℕ) : ∀ (cs : List ℕ) (g : ℕ),
    chainOk h g (chainFrom h g cs) = true := by
  intro cs
  induction cs with
  | nil => intro g; rfl
  | cons c cs ih =>
    intro g
    simp [chainFrom, chainOk, ih]

/-- Helper: tampering distributes over cons at a successor position. -/
theorem tamper_cons_succ (j c : ℕ) (r : LogRecord) (rs : List LogRecord) :
    tamper (j + 1) c (r :: rs) = r :: tamper j c rs := by
  simp [tamper]

/-- Helper: the adjacent-pair check at a successor position looks only
at the tail. -/
theorem pairOkAt_cons_succ (h : ℕ → ℕ) (r : LogRecord) (rs : List LogRecord)
    (j : ℕ) : pairOkAt h (r :: rs) (j + 1) = pairOkAt h rs j := by
  simp [pairOkAt]

/-- Helper: mutating the content of a record that has a successor makes
the pair check right after the mutated position fail, for an injective
hash. -/
theorem tamper_breaks_pair (h : ℕ → ℕ) (hinj : Function.Injective h) :
    ∀ (cs : List ℕ) (g i c : ℕ), i + 1 < cs.length → c ≠ cs.getD i 0 →
      pairOkAt h (tamper i c (chainFrom h g cs)) i = false := by
  intro cs
  induction cs with
  | nil => intro g i c hi; simp at hi
  | cons a cs ih =>
    intro g i c hi hc
    cases i with
    | zero =>
      cases cs with
      | nil => simp at hi
      | cons b cs =>
        simp only [List.getD_cons_zero] at hc
        simp only [chainFrom, tamper, pairOkAt, List.set_cons_zero,
          List.getD_cons_zero, List.getD_cons_succ]
        simp only [beq_eq_false_iff_ne, ne_eq]
        exact fun hh => hc (hinj hh).symm
    | succ j =>
      have hj : j + 1 < cs.length := by
        simpa using hi
      have hcj : c ≠ cs.getD j 0 := by
        simpa using hc
      calc pairOkAt h (tamper (j + 1) c (chainFrom h g (a :: cs))) (j + 1)
          = pairOkAt h (⟨a, g⟩ :: tamper j c (chainFrom h (h a) cs)) (j + 1) := by
            rw [chainFrom, tamper_cons_succ]
        _ = pairOkAt h (tamper j c (chainFrom h (h a) cs)) j :=
            pairOkAt_cons_succ h _ _ j
        _ = false := ih (h a) j c hj hcj

/-- C5 counterexample: in the one-record chain built from content [5],
changing the stored record's content to 7 yields a different chain on
which the full prev_hash check (genesis check and every adjacent pair)
still passes — mutating the final record is not detected. -/
theorem logchain_tamper_counterexample :
    chainOk Nat.succ genesis (tamper 0 7 (buildChain Nat.succ [5])) = true ∧
    tamper 0 7 (buildChain Nat.succ [5]) ≠ buildChain Nat.succ [5] ∧
    (7 : ℕ) ≠ 5 := by
  refine ⟨rfl, ?_, by decide⟩
  intro hcontra
  simpa [tamper, buildChain, chainFrom, genesis] using congrArg (fun l => (l.headD default).content) hcontra

/-- C5 amended: every chain the Audit Logger produces passes the
prev_hash check (each record's prev_hash is the hash of the preceding
record's content, genesis for the first); and changing the content of
any stored record that is followed by at least one more record makes
the prev_hash check of the adjacent pair immediately at the mutated
position fail. (Mutating the final record is not detected by the
prev_hash links alone — see the counterexample.) -/
theorem logchain_valid_and_tamper_detected (h : ℕ → ℕ)
    (hinj : Function.Injective h) (cs : List ℕ) (i c : ℕ)
    (hi : i + 1 < cs.length) (hc : c ≠ cs.getD i 0) :
    chainOk h genesis (buildChain h cs) = true ∧
    pairOkAt h (tamper i c (buildChain h cs)) i = false :=
  ⟨chainOk_chainFrom h cs genesis, tamper_breaks_pair h hinj cs genesis i c hi hc⟩

/-- C5 witness: the amended theorem at the injective hash Nat.succ,
contents [1, 2, 3], mutating position 0 to content 9. -/
theorem logchain_valid_and_tamper_detected_witness :
    chainOk Nat.succ genesis (buildChain Nat.succ [1, 2, 3]) = true ∧
    pairOkAt Nat.succ (tamper 0 9 (buildChain Nat.succ [1, 2, 3])) 0 = false :=
  logchain_valid_and_tamper_detected Nat.succ
    (fun _ _ hab => Nat.succ.inj hab) [1, 2, 3] 0 9 (by decide) (by decide)

/-- Helper: the empty kept set has no active contradiction edge. -/
theorem hasBadEdge_nil (g : CGraph) : hasBadEdge g [] = false := by
  simp [hasBadEdge, activeEdge]

/-- Helper: maxBy picks an element of its list. -/
theorem maxBy_mem (f : ℕ → ℚ) : ∀ (l : List ℕ) (v : ℕ),
    maxBy f l = some v → v ∈ l := by
  intro l
  induction l with
  | nil => intro v hv; simp [maxBy] at hv
  | cons x xs ih =>
    intro v hv
    rw [maxBy] at hv
    cases hm : maxBy f xs with
    | none => rw [hm] at hv; simp at hv; simp [hv]
    | some y =>
      rw [hm] at hv
      simp at hv
      by_cases hf : f x < f y
      · simp [hf] at hv
        exact List.mem_cons_of_mem x (hv ▸ ih y hm)
      · simp [hf] at hv
        simp [hv]

/-- Helper: maxBy on a nonempty list returns a value. -/
theorem maxBy_cons (f : ℕ → ℚ) (x : ℕ) (xs : List ℕ) :
    ∃ v, maxBy f (x :: xs) = some v := by
  rw [maxBy]
  cases maxBy f xs with
  | none => exact ⟨x, rfl⟩
  | some y => exact ⟨if f x < f y then y else x, rfl⟩

/-- Helper: an active contradiction edge forces a nonempty kept set. -/
theorem hasBadEdge_ne_nil (g : CGraph) (kept : List ℕ)
    (hb : hasBadEdge g kept = true) : kept ≠ [] := by
  intro hk
  rw [hk, hasBadEdge_nil] at hb
  exact Bool.false_ne_true hb

/-- Helper: with fuel at least the kept count, the greedy removal ends
with no above-threshold contradiction edge among the kept claims. -/
theorem greedyRemove_no_bad (g : CGraph) : ∀ (fuel : ℕ) (kept : List ℕ),
    kept.length ≤ fuel → hasBadEdge g (greedyRemove g fuel kept) = false := by
  intro fuel
  induction fuel with
  | zero =>
    intro kept hk
    have : kept = [] := List.length_eq_zero.mp (Nat.le_zero.mp hk)
    rw [greedyRemove, this, hasBadEdge_nil]
  | succ n ih =>
    intro kept hk
    rw [greedyRemove]
    by_cases hb : hasBadEdge g kept = true
    · rw [if_pos hb]
      cases hm : maxBy (incidentWeight g kept) kept with
      | none =>
        obtain ⟨x, xs, hxs⟩ :=
          List.exists_cons_of_ne_nil (hasBadEdge_ne_nil g kept hb)
        subst hxs
        obtain ⟨v, hv⟩ := maxBy_cons (incidentWeight g (x :: xs)) x xs
        rw [hm] at hv
        exact absurd hv (by simp)
      | some v =>
        apply ih
        have hvmem : v ∈ kept := maxBy_mem _ _ v hm
        have hlen := List.length_erase_of_mem hvmem
        have hpos : 1 ≤ kept.length :=
          List.length_pos.mpr (hasBadEdge_ne_nil g kept hb)
        omega
    · rw [if_neg hb]
      exact Bool.not_eq_true _ ▸ Bool.of_not_eq_true hb

/-- Helper: greedy removal only ever discards claims. -/
theorem greedyRemove_subset (g : CGraph) : ∀ (fuel : ℕ) (kept : List ℕ),
    greedyRemove g fuel kept ⊆ kept := by
  intro fuel
  induction fuel with
  | zero => intro kept; rw [greedyRemove]; exact fun a ha => ha
  | succ n ih =>
    intro kept
    rw [greedyRemove]
    by_cases hb : hasBadEdge g kept = true
    · rw [if_pos hb]
      cases hm : maxBy (incidentWeight g kept) kept with
      | none => exact fun a ha => ha
      | some v =>
        exact fun a ha => List.erase_subset v kept (ih (kept.erase v) ha)
    · rw [if_neg hb]
      exact fun a ha => ha

/-- Helper: greedy removal never grows the kept set. -/
theorem greedyRemove_length (g : CGraph) : ∀ (fuel : ℕ) (kept : List ℕ),
    (greedyRemove g fuel kept).length ≤ kept.length := by
  intro fuel
  induction fuel with
  | zero => intro kept; rw [greedyRemove]
  | succ n ih =>
    intro kept
    rw [greedyRemove]
    by_cases hb : hasBadEdge g kept = true
    · rw [if_pos hb]
      cases maxBy (incidentWeight g kept) kept with
      | none => exact le_rfl
      | some v =>
        exact le_trans (ih (kept.erase v)) (List.length_erase_le v kept)
    · rw [if_neg hb]

/-- C6: contradiction_mass equals 1 − |kept|/|total| where kept is the
outcome of the greedy procedure; the greedy procedure genuinely runs to
completion: no above-threshold contradiction edge remains among the
kept claims, which are a sub-collection of the graph's claims. -/
theorem contradiction_mass_spec (g : CGraph) :
    contradiction_mass g =
      1 - ((keptClaims g).length : ℚ) / (g.nodes.length : ℚ) ∧
    hasBadEdge g (keptClaims g) = false ∧
    keptClaims g ⊆ g.nodes ∧
    (keptClaims g).length ≤ g.nodes.length :=
  ⟨rfl, greedyRemove_no_bad g g.nodes.length g.nodes le_rfl,
    greedyRemove_subset g g.nodes.length g.nodes,
    greedyRemove_length g g.nodes.length g.nodes⟩

/-- Helper: membership in the builder's pair list is exactly being an
index pair i < j into the claim list with distinct source candidates. -/
theorem mem_claimPairs (cands : List ℕ) (i j : ℕ) :
    (i, j) ∈ claimPairs cands ↔
      (i < j ∧ j < cands.length ∧ cands.getD i 0 ≠ cands.getD j 0) := by
  simp only [claimPairs, List.mem_flatMap, List.mem_filterMap, List.mem_range]
  constructor
  · rintro ⟨a, ha, b, hb, hab⟩
    split_ifs at hab with hcond
    · simp only [Option.some.injEq, Prod.mk.injEq] at hab
      obtain ⟨h1, h2⟩ := hab
      subst h1
      subst h2
      exact ⟨hcond.1, hb, hcond.2⟩
  · rintro ⟨hij, hj, hne⟩
    exact ⟨i, lt_trans hij hj, j, hj, by rw [if_pos ⟨hij, hne⟩]⟩

/-- Helper: every pair the inner enumeration for outer index a emits
has first component a. -/
theorem claimPairs_inner_fst (cands : List ℕ) (a : ℕ) (p : ℕ × ℕ)
    (hp : p ∈ (List.range cands.length).filterMap fun j =>
      if a < j ∧ cands.getD a 0 ≠ cands.getD j 0 then some (a, j) else none) :
    p.1 = a := by
  simp only [List.mem_filterMap, List.mem_range] at hp
  obtain ⟨b, hb, hpb⟩ := hp
  split_ifs at hpb with h1
  simp only [Option.some.injEq] at hpb
  rw [← hpb]

/-- Helper: the builder's pair list has no duplicates. -/
theorem claimPairs_nodup (cands : List ℕ) : (claimPairs cands).Nodup := by
  rw [claimPairs, List.nodup_flatMap]
  constructor
  · intro x hx
    apply List.Nodup.filterMap
    · intro b b' p hb hb'
      simp only [Option.mem_def] at hb hb'
      split_ifs at hb with h1
      split_ifs at hb' with h2
      simp only [Option.some.injEq] at hb hb'
      rw [← hb'] at hb
      exact (Prod.mk.injEq .. ▸ hb).2
    · exact List.nodup_range _
  · refine (List.pairwise_lt_range cands.length).imp ?_
    intro a b hab
    simp only [Function.onFun, List.disjoint_left]
    intro p hp hq
    have h1 := claimPairs_inner_fst cands a p hp
    have h2 := claimPairs_inner_fst cands b p hq
    omega

/-- C7: the Claim Graph Builder's entailment-adapter calls are exactly
one per unordered pair of claims from different candidates: every
generated pair is cross-candidate with i < j, every cross-candidate
index pair is generated, the pair list has no duplicates, and no
unordered pair appears under both orientations. -/
theorem claimPairs_spec (cands : List ℕ) :
    (∀ p ∈ claimPairs cands, p.1 < p.2 ∧ p.2 < cands.length ∧
      cands.getD p.1 0 ≠ cands.getD p.2 0) ∧
    (∀ i j, i < j → j < cands.length → cands.getD i 0 ≠ cands.getD j 0 →
      (i, j) ∈ claimPairs cands) ∧
    (claimPairs cands).Nodup ∧
    (∀ i j, (i, j) ∈ claimPairs cands → (j, i) ∉ claimPairs cands) := by
  refine ⟨?_, ?_, claimPairs_nodup cands, ?_⟩
  · rintro ⟨i, j⟩ hp
    exact (mem_claimPairs cands i j).mp hp
  · intro i j hij hj hne
    exact (mem_claimPairs cands i j).mpr ⟨hij, hj, hne⟩
  · intro i j hij hji
    have h1 := ((mem_claimPairs cands i j).mp hij).1
    have h2 := ((mem_claimPairs cands j i).mp hji).1
    omega

/-- C8 counterexample: on a results object where a domain entry has
Base and MStack but lacks SelfConsistency, the evidence.js renderer
throws (reading hallucination_rate off undefined), while the part_000
renderer appends one row with the missing cells rendered as 0 — the two
versions are not observationally equivalent. -/
theorem render_equiv_counterexample :
    renderTableEvidenceJs resultsMissingSC = Except.error () ∧
    renderTablePart000 resultsMissingSC = [⟨"RAG", 10, 0, 0, 5⟩] ∧
    renderTableEvidenceJs resultsMissingSC ≠
      Except.ok (renderTablePart000 resultsMissingSC) := by
  refine ⟨rfl, ?_, ?_⟩
  · show [(⟨"RAG", 100 * (1/10 : ℚ), 100 * (0 : ℚ), 100 * (0 : ℚ),
      100 * (1/20 : ℚ)⟩ : TableRow)] = [⟨"RAG", 10, 0, 0, 5⟩]
    norm_num
  · intro hcontra
    exact Except.noConfusion hcontra

/-- C8 amended: the two renderers are observationally equivalent on
every results object in which any domain entry having both Base and
MStack also has SelfConsistency and JudgeGate; they differ otherwise
(see the counterexample: evidence.js throws where part_000 renders
"0.0%"). -/
theorem render_equiv_when_complete (results : List (String × DomainEntry))
    (hcomplete : ∀ p ∈ results,
      p.2.base.isSome → p.2.mstack.isSome →
        p.2.selfConsistency.isSome ∧ p.2.judgeGate.isSome) :
    renderTableEvidenceJs results = Except.ok (renderTablePart000 results) := by
  induction results with
  | nil => rfl
  | cons p rest ih =>
    obtain ⟨d, e⟩ := p
    have hrest := ih fun q hq => hcomplete q (List.mem_cons_of_mem _ hq)
    have hhead := hcomplete (d, e) (List.mem_cons_self _ _)
    rcases hb : e.base with _ | b
    · simp only [renderTableEvidenceJs, renderTablePart000, hb]
      exact hrest
    · rcases hm : e.mstack with _ | m
      · simp only [renderTableEvidenceJs, renderTablePart000, hb, hm]
        exact hrest
      · have hsj := hhead (by rw [hb]; rfl) (by rw [hm]; rfl)
        obtain ⟨s, hs⟩ := Option.isSome_iff_exists.mp hsj.1
        obtain ⟨j, hj⟩ := Option.isSome_iff_exists.mp hsj.2
        have hs' : e.selfConsistency = some s := hs
        have hj' : e.judgeGate = some j := hj
        simp only [renderTableEvidenceJs, renderTablePart000, hb, hm, hs', hj',
          hrest, Except.map, Option.getD_some]

/-- C8 witness: the amended theorem at a concrete results object whose
qualifying entry carries all four systems. -/
theorem render_equiv_when_complete_witness :
    renderTableEvidenceJs resultsComplete =
      Except.ok (renderTablePart000 resultsComplete) :=
  render_equiv_when_complete resultsComplete (by decide)

/-- C10: the part_000 renderer appends exactly one row per domain whose
entry has both Base and MStack, in enumeration order, and no row for
any other domain; the row for an entry whose SelfConsistency or
JudgeGate is missing carries cell value 0 (formatted "0.0%" by
toFixed(1)) in the corresponding column rather than failing. -/
theorem renderTablePart000_spec (results : List (String × DomainEntry))
    (q : String × DomainEntry) (hsc : q.2.selfConsistency = none)
    (hjg : q.2.judgeGate = none) :
    renderTablePart000 results =
      (results.filter fun p => p.2.base.isSome && p.2.mstack.isSome).map rowOf ∧
    (rowOf q).scCell = 0 ∧ (rowOf q).jgCell = 0 := by
  refine ⟨?_, by simp [rowOf, hsc], by simp [rowOf, hjg]⟩
  induction results with
  | nil => rfl
  | cons p rest ih =>
    obtain ⟨d, e⟩ := p
    rcases hb : e.base with _ | b <;> rcases hm : e.mstack with _ | m <;>
      simp [renderTablePart000, rowOf, hb, hm, ih, List.filter_cons]

/-- C10 witness: the theorem at the concrete results object whose
entry lacks SelfConsistency and JudgeGate. -/
theorem renderTablePart000_spec_witness :
    renderTablePart000 resultsMissingSC =
      (resultsMissingSC.filter fun p =>
        p.2.base.isSome && p.2.mstack.isSome).map rowOf ∧
    (rowOf ("RAG", ⟨some (1/10), none, none, some (1/20)⟩)).scCell = 0 ∧
    (rowOf ("RAG", ⟨some (1/10), none, none, some (1/20)⟩)).jgCell = 0 :=
  renderTablePart000_spec resultsMissingSC
    ("RAG", ⟨some (1/10), none, none, some (1/20)⟩) rfl rfl

end MStack
